import Mathlib

/-!
# gendex: verification development

A shallow embedding of `cmd/gomobile/gendex.go`, the generator that compiles the
Java sources of the app package, links them into a DEX file, base64-encodes the
DEX bytes and writes them out as a Go string literal.

The file has two layers.

* The pure part of `gendex` (lines 105-119 of the source): the base64 text of the
  DEX bytes is cut into pieces of at most 70 characters and each piece is written
  into a buffer between backticks.
* The effectful part (`main`, `gendex`, `findLast`): every call that leaves the
  program (file system, process execution, formatter) is answered by an
  environment record, and a run yields the list of calls it made together with
  the way it ended: a value, a returned Go error, or a runtime panic.
-/

namespace Gendex

/-! ## Bytes and text -/

/-- One element of a Go `[]byte`. -/
abbrev Byte := Fin 256

/-- Go's conversion `byte(n)` of an unsigned integer: the low eight bits. -/
def byteOf (n : Nat) : Byte := ⟨n % 256, Nat.mod_lt n (by decide)⟩

/-! ## `encoding/base64`, standard encoding -/

/-- The constant `encodeStd` of the Go standard library package `encoding/base64`: the
alphabet of `base64.StdEncoding` (RFC 4648, section 4). The package is imported by
`gendex.go`; it is not part of the repository. -/
def encodeStd : List Char :=
  "ABCDEFGHIJKLMNOPQRSTUVWXYZabcdefghijklmnopqrstuvwxyz0123456789+/".toList

/-- The padding character `base64.StdPadding` of the standard encoding. -/
def padChar : Char := '='

/-- The table lookup `enc.encode[v&0x3F]` of the library encoder. -/
def encodeChar (v : Nat) : Char := encodeStd.getD (v % 64) 'A'

/-- The library function `base64.StdEncoding.EncodeToString`, following the loop of
`(*Encoding).Encode` in `encoding/base64`. Each full group of three
bytes `a b c` forms the 24-bit value `a<<16 | b<<8 | c` and is written as the four
characters indexed by `val>>18`, `val>>12`, `val>>6` and `val`, each masked to six bits;
a remainder of one or two bytes is written as two or three characters and padded with
`=` to four. Shifts are written as multiplication and division by powers of two. -/
def EncodeToString : List Byte → List Char
  | [] => []
  | [a] =>
    let val := a.val * 65536
    [encodeChar (val / 262144), encodeChar (val / 4096), padChar, padChar]
  | [a, b] =>
    let val := a.val * 65536 + b.val * 256
    [encodeChar (val / 262144), encodeChar (val / 4096), encodeChar (val / 64), padChar]
  | a :: b :: c :: rest =>
    let val := a.val * 65536 + b.val * 256 + c.val
    encodeChar (val / 262144) :: encodeChar (val / 4096) :: encodeChar (val / 64)
      :: encodeChar val :: EncodeToString rest

/-- The decoding table of the standard encoding, the inverse of the alphabet: the position
of the character in the alphabet, if it is there. -/
def decodeMap (c : Char) : Option Nat :=
  let i := encodeStd.indexOf c
  if i < 64 then some i else none

/-- Decoding of standard-alphabet base64 text with padding (RFC 4648, section 4), the
notion of decoding the round-trip property is stated with. The text is read four characters at a time; each character must be
in the alphabet, except that the last group may end in one or two `=`; a group of four
alphabet characters gives three bytes, a group ending in `=` gives two bytes and a group
ending in `==` gives one. Text whose length is not a multiple of four, padding that is not
at the very end, and characters outside the alphabet are rejected. (The library decoder
`DecodeString` accepts the same texts with the same results and in addition skips line
breaks.) -/
def DecodeString : List Char → Option (List Byte)
  | [] => some []
  | c0 :: c1 :: c2 :: c3 :: rest =>
    match decodeMap c0, decodeMap c1 with
    | some v0, some v1 =>
      if c3 = padChar then
        if rest ≠ [] then none
        else if c2 = padChar then
          some [byteOf ((v0 * 64 + v1) / 16)]
        else
          match decodeMap c2 with
          | some v2 =>
            let val := (v0 * 64 + v1) * 64 + v2
            some [byteOf (val / 1024), byteOf (val / 4)]
          | none => none
      else
        match decodeMap c2, decodeMap c3 with
        | some v2, some v3 =>
          let val := ((v0 * 64 + v1) * 64 + v2) * 64 + v3
          (DecodeString rest).map
            (fun t => byteOf (val / 65536) :: byteOf (val / 256) :: byteOf val :: t)
        | _, _ => none
    | _, _ => none
  | _ => none

/-! ## The chunking loop of `gendex` (source lines 105-119) -/

/-- The package variable `header`: the licence comment, the generated-code marker, the
package clause and the opening of the declaration of `dexStr`. -/
def header : List Char :=
  ("// Copyright 2015 The Go Authors.  All rights reserved.\n" ++
   "// Use of this source code is governed by a BSD-style\n" ++
   "// license that can be found in the LICENSE file.\n" ++
   "\n" ++
   "// Code generated by gendex.go. DO NOT EDIT.\n" ++
   "\n" ++
   "package main\n" ++
   "\n" ++
   "var dexStr = ").toList

/-- The variables the loop `for len(data) > 0` reads and writes: the output buffer `buf`,
the text `data` still to be cut, and, as a record of what the loop emitted, the values
taken by `piece` in order. -/
structure LoopState where
  buf : List Char
  data : List Char
  pieces : List (List Char)
deriving DecidableEq, Repr

/-- One pass through the loop body: `l` is 70, or `len(data)` if that is smaller;
`piece, data = data[:l], data[l:]`; then the line is written by `fmt.Fprintf`: a tab, the
piece between back quotes, a space, a plus sign, a space and a newline. -/
def loopBody (s : LoopState) : LoopState :=
  let l := if 70 > s.data.length then s.data.length else 70
  let piece := s.data.take l
  { buf := s.buf ++ ("\t`".toList ++ piece ++ "` + \n".toList)
    data := s.data.drop l
    pieces := s.pieces ++ [piece] }

/-- The loop `for len(data) > 0 { ... }`. It terminates because every pass removes at
least one character from `data`. -/
def chunkLoop (s : LoopState) : LoopState :=
  if 0 < s.data.length then chunkLoop (loopBody s) else s
termination_by s.data.length
decreasing_by
  simp only [loopBody]
  split <;> simp [List.length_drop] <;> omega

/-- Lines 105-119 of `gendex`: encode the bytes read from `classes.dex`, start the buffer
with the header, run the loop, and close with the empty literal. The result holds the
buffer handed to the formatter and the pieces the loop emitted. -/
def encodeAndEmit (src : List Byte) : LoopState :=
  let data := EncodeToString src
  let s := chunkLoop { buf := header, data := data, pieces := [] }
  { s with buf := s.buf ++ "\t``".toList }

/-- The pieces written between backticks, in order, for the DEX bytes `src`. -/
def emittedChunks (src : List Byte) : List (List Char) := (encodeAndEmit src).pieces

/-- The text `gendex` passes to `format.Source` for the DEX bytes `src`. -/
def formatterInput (src : List Byte) : List Char := (encodeAndEmit src).buf

/-! ## Notions the properties of the chunks are stated with -/

/-- Length invariant of the loop: every piece has between 1 and 70 characters, every piece
but the last has exactly 70, and while text remains every piece has exactly 70. -/
def LengthInv (s : LoopState) : Prop :=
  (∀ c ∈ s.pieces, 0 < c.length ∧ c.length ≤ 70) ∧
  (∀ c ∈ s.pieces.dropLast, c.length = 70) ∧
  (0 < s.data.length → ∀ c ∈ s.pieces, c.length = 70)

/-- The back quote character, U+0060, which delimits a Go raw string literal. -/
def backquote : Char := Char.ofNat 96

/-- Reading the texts written between back quotes: `none` while outside a literal, and
`some acc` while inside one, with `acc` the characters read since the opening back quote.
A closing back quote gives one text; an unclosed literal gives none. -/
def scanLiterals : Option (List Char) → List Char → List (List Char)
  | _, [] => []
  | none, ch :: rest =>
    if ch = backquote then scanLiterals (some []) rest else scanLiterals none rest
  | some acc, ch :: rest =>
    if ch = backquote then acc :: scanLiterals none rest
    else scanLiterals (some (acc ++ [ch])) rest

/-- The texts that stand between back quotes in `text`, in the order they are written. -/
def backquotedTexts (text : List Char) : List (List Char) := scanLiterals none text

/-- The characters the standard encoding can produce, described by ranges:
`A`-`Z`, `a`-`z`, `0`-`9`, `+`, `/` and the padding `=`. -/
def IsBase64Char (ch : Char) : Prop :=
  ('A' ≤ ch ∧ ch ≤ 'Z') ∨ ('a' ≤ ch ∧ ch ≤ 'z') ∨ ('0' ≤ ch ∧ ch ≤ '9') ∨
    ch = '+' ∨ ch = '/' ∨ ch = '='

instance : DecidablePred IsBase64Char := fun ch => by
  unfold IsBase64Char
  infer_instance

/-- The value of a Go raw string literal, after the Go language specification ("String
literals"): the text must start and end with a back quote and hold no back quote in
between; its value is the characters in between, carriage returns discarded. `none` when
the text is not one complete raw string literal. -/
def rawStringLiteral (text : List Char) : Option (List Char) :=
  match text with
  | [] => none
  | q :: rest =>
    if q = backquote ∧ rest.getLast? = some backquote ∧ backquote ∉ rest.dropLast then
      some (rest.dropLast.filter (fun ch => ch ≠ '\r'))
    else none

/-! ## Calls that leave the program -/

/-- A Go `error` value: one returned by a call that leaves the program, one made by
`errors.New`, or one made by `fmt.Errorf` with the verb `%w`, which wraps another. -/
inductive GoError where
  | ofCall (msg : String)
  | errorsNew (msg : String)
  | wrapped (msg : String) (inner : GoError)
deriving DecidableEq, Repr

/-- The calls of `main`, `gendex` and `findLast` that leave the program, with their
arguments. A file handle is named by the path it was created for. -/
inductive Call where
  | tempDir (dir pattern : String)
  | androidHome
  | mkdirAll (path : String) (perm : Nat)
  | glob (pattern : String)
  | osOpen (path : String)
  | readdirnames (path : String) (n : Int)
  | combinedOutput (args : List String)
  | println (args : List String)
  | stderrWrite (out : List Byte)
  | readFile (path : String)
  | formatSource (text : List Char)
  | bufWriteToStderr (text : List Char)
  | create (path : String)
  | write (path : String) (text : List Char)
  | close (path : String)
  | removeAll (path : String)
  | logFatal (e : GoError)
deriving DecidableEq, Repr

/-- One call made during a run, with the error it returned (`none` for `nil`, and for
calls whose result the program does not look at). -/
structure Event where
  call : Call
  err : Option GoError
deriving DecidableEq, Repr

/-- How a piece of Go code ends: it returns a value, it panics (nothing in this program
recovers or defers, so a panic ends the run at once), or it exits the process. -/
inductive Outcome (α : Type) where
  | returned (a : α)
  | panicked (msg : String)
  | exited (code : Nat)
deriving DecidableEq, Repr

/-- A run of a piece of Go code: the calls it made, in order, and how it ended. -/
structure Run (α : Type) where
  trace : List Event
  out : Outcome α
deriving DecidableEq, Repr

/-- Sequencing: the second part runs only if the first returned; a panic or an exit ends
the run with the calls made so far. -/
def Run.bind {α β : Type} (r : Run α) (f : α → Run β) : Run β :=
  match r.out with
  | .returned a => ⟨r.trace ++ (f a).trace, (f a).out⟩
  | .panicked msg => ⟨r.trace, .panicked msg⟩
  | .exited code => ⟨r.trace, .exited code⟩

/-- The run `r` with the calls `tr` made before it. -/
def Run.prepend {α : Type} (tr : List Event) (r : Run α) : Run α :=
  ⟨tr ++ r.trace, r.out⟩

instance : Monad Run where
  pure a := ⟨[], .returned a⟩
  bind := Run.bind

deriving instance DecidableEq for Except

/-- The answers of the world outside the program. Each field answers one kind of call as
a function of the call's arguments; `outfile` is the value of the flag `-o` after
`flag.Parse`. Nothing is assumed about the answers. -/
structure Env where
  outfile : String
  tempDir : Except GoError String
  androidHome : Except GoError String
  mkdirAll : String → Option GoError
  glob : String → Except GoError (List String)
  osOpen : String → Option GoError
  readdirnames : String → Except GoError (List String)
  combinedOutput : List String → List Byte × Option GoError
  readFile : String → Except GoError (List Byte)
  formatSource : List Char → Except GoError (List Char)
  create : String → Option GoError
  write : String → List Char → Option GoError
  close : String → Option GoError
  removeAll : String → Option GoError

/-- The `err` half of a Go result pair `(value, err)`. -/
def errOf {α : Type} : Except GoError α → Option GoError
  | .ok _ => none
  | .error e => some e

/-- Make the call `c`, which returns the error `err`, and hand `a` to the program. -/
def perform {α : Type} (c : Call) (err : Option GoError) (a : α) : Run α :=
  ⟨[⟨c, err⟩], .returned a⟩

/-- A run-time panic. -/
def goPanic {α : Type} (msg : String) : Run α := ⟨[], .panicked msg⟩

/-- The Go index expression `xs[i]` on a slice: it panics unless `0 ≤ i < len(xs)`. -/
def goIndex (xs : List String) (i : Int) : Run String :=
  if 0 ≤ i then
    match xs[i.toNat]? with
    | some x => pure x
    | none => goPanic "runtime error: index out of range"
  else goPanic "runtime error: index out of range"

/-- The call `ioutil.TempDir(dir, pattern)`. -/
def ioutilTempDir (env : Env) (dir pattern : String) : Run (Except GoError String) :=
  perform (.tempDir dir pattern) (errOf env.tempDir) env.tempDir

/-- The call `sdkpath.AndroidHome()`. -/
def sdkpathAndroidHome (env : Env) : Run (Except GoError String) :=
  perform .androidHome (errOf env.androidHome) env.androidHome

/-- The call `os.MkdirAll(path, perm)`. -/
def osMkdirAll (env : Env) (path : String) (perm : Nat) : Run (Option GoError) :=
  perform (.mkdirAll path perm) (env.mkdirAll path) (env.mkdirAll path)

/-- The call `filepath.Glob(pattern)`. -/
def filepathGlob (env : Env) (pattern : String) : Run (Except GoError (List String)) :=
  perform (.glob pattern) (errOf (env.glob pattern)) (env.glob pattern)

/-- The call `os.Open(path)`; the handle it returns is named by `path`. -/
def osOpen (env : Env) (path : String) : Run (Option GoError) :=
  perform (.osOpen path) (env.osOpen path) (env.osOpen path)

/-- The call `dir.Readdirnames(n)` on the handle opened for `path`. -/
def fileReaddirnames (env : Env) (path : String) (n : Int) :
    Run (Except GoError (List String)) :=
  perform (.readdirnames path n) (errOf (env.readdirnames path)) (env.readdirnames path)

/-- The call `cmd.CombinedOutput()` on `exec.Command(args[0], args[1:]...)`: the process is
started and waited for; the result is its output and an error. -/
def cmdCombinedOutput (env : Env) (args : List String) : Run (List Byte × Option GoError) :=
  perform (.combinedOutput args) (env.combinedOutput args).2 (env.combinedOutput args)

/-- The call `fmt.Println(cmd.Args)`. -/
def fmtPrintln (args : List String) : Run Unit := perform (.println args) none ()

/-- The call `os.Stderr.Write(out)`. -/
def stderrWrite (out : List Byte) : Run Unit := perform (.stderrWrite out) none ()

/-- The call `ioutil.ReadFile(path)`. -/
def ioutilReadFile (env : Env) (path : String) : Run (Except GoError (List Byte)) :=
  perform (.readFile path) (errOf (env.readFile path)) (env.readFile path)

/-- The call `format.Source(text)`. -/
def formatSource (env : Env) (text : List Char) : Run (Except GoError (List Char)) :=
  perform (.formatSource text) (errOf (env.formatSource text)) (env.formatSource text)

/-- The call `buf.WriteTo(os.Stderr)`. -/
def bufWriteToStderr (text : List Char) : Run Unit := perform (.bufWriteToStderr text) none ()

/-- The call `os.Create(path)`; the handle it returns is named by `path`. -/
def osCreate (env : Env) (path : String) : Run (Option GoError) :=
  perform (.create path) (env.create path) (env.create path)

/-- The call `w.Write(text)` on the handle created for `path`. -/
def fileWrite (env : Env) (path : String) (text : List Char) : Run (Option GoError) :=
  perform (.write path text) (env.write path text) (env.write path text)

/-- The call `w.Close()` on the handle created for `path`. -/
def fileClose (env : Env) (path : String) : Run (Option GoError) :=
  perform (.close path) (env.close path) (env.close path)

/-- The call `os.RemoveAll(path)`; `main` does not look at its result. -/
def osRemoveAll (env : Env) (path : String) : Run Unit :=
  perform (.removeAll path) (env.removeAll path) ()

/-- The call `log.Fatal(e)`: print the error and exit with status 1. -/
def logFatal {α : Type} (e : GoError) : Run α := ⟨[⟨.logFatal e, none⟩], .exited 1⟩

/-! ## `findLast`, `gendex` and `main` -/

/-- The function `findLast` (source lines 139-149): open the directory, read all the names
in it, and return the path of `children[len(children)-1]`. -/
def findLast (env : Env) (path : String) : Run (Except GoError String) := do
  if let some err ← osOpen env path then
    return .error err
  match ← fileReaddirnames env path (-1) with
  | .error err => return .error err
  | .ok children =>
  let last ← goIndex children ((children.length : Int) - 1)
  return .ok (path ++ "/" ++ last)

/-- The function `gendex` (source lines 55-137), for the value `tmpdir` of the package
variable of that name. The result is the returned `error`, `none` for `nil`. -/
def gendex (env : Env) (tmpdir : String) : Run (Option GoError) := do
  match ← sdkpathAndroidHome env with
  | .error err => return some (.wrapped "couldn't find Android SDK: " err)
  | .ok androidHome =>
  if let some err ← osMkdirAll env (tmpdir ++ "/work/org/golang/app") 0o775 then
    return some err
  match ← filepathGlob env "../../app/*.java" with
  | .error err => return some err
  | .ok javaFiles =>
  if javaFiles.length = 0 then
    return some (.errorsNew "could not find ../../app/*.java files")
  match ← findLast env (androidHome ++ "/platforms") with
  | .error err => return some err
  | .ok platform =>
  let args := ["javac", "-source", "1.8", "-target", "1.8",
    "-bootclasspath", platform ++ "/android.jar", "-d", tmpdir ++ "/work"] ++ javaFiles
  let (out, err) ← cmdCombinedOutput env args
  if let some err := err then
    fmtPrintln args
    stderrWrite out
    return some err
  match ← findLast env (androidHome ++ "/build-tools") with
  | .error err => return some err
  | .ok buildTools =>
  let args := [buildTools ++ "/dx", "--dex", "--output=" ++ tmpdir ++ "/classes.dex",
    tmpdir ++ "/work"]
  let (out, err) ← cmdCombinedOutput env args
  if let some err := err then
    stderrWrite out
    return some err
  match ← ioutilReadFile env (tmpdir ++ "/classes.dex") with
  | .error err => return some err
  | .ok src =>
  let buf := formatterInput src
  match ← formatSource env buf with
  | .error err =>
    bufWriteToStderr buf
    return some err
  | .ok out =>
  if let some err ← osCreate env env.outfile then
    return some err
  if let some err ← fileWrite env env.outfile out then
    return some err
  if let some err ← fileClose env env.outfile then
    return some err
  return none

/-- The function `main` (source lines 39-53), from after `flag.Parse()`: make the temporary
directory, run `gendex`, remove the directory, and exit with the error if there was one. -/
def main (env : Env) : Run Unit := do
  match ← ioutilTempDir env "" "gendex-" with
  | .error err => logFatal err
  | .ok tmpdir =>
  let err ← gendex env tmpdir
  osRemoveAll env tmpdir
  if let some err := err then
    logFatal err

/-! ## Reading a trace -/

/-- The calls `gendex` makes only to report a failure that has already happened. -/
def Call.isDiagnostic : Call → Bool
  | .println _ => true
  | .stderrWrite _ => true
  | .bufWriteToStderr _ => true
  | _ => false

/-- The calls that start a process. -/
def Call.isProcess : Call → Bool
  | .combinedOutput _ => true
  | _ => false

/-- The call that starts the compiler: a process whose command name is `javac`. -/
def Call.isJavac : Call → Bool
  | .combinedOutput args => decide (args.head? = some "javac")
  | _ => false

/-- The call to the formatter. -/
def Call.isFormat : Call → Bool
  | .formatSource _ => true
  | _ => false

/-- The call that creates the output file. -/
def Call.isCreate : Call → Bool
  | .create _ => true
  | _ => false

/-- The error `gendex` returns when the call `c` returned the error `e`: the error itself,
except for the SDK lookup, whose error is wrapped by
`fmt.Errorf("couldn't find Android SDK: %w", err)`. -/
def returnedFor (c : Call) (e : GoError) : GoError :=
  if c = .androidHome then .wrapped "couldn't find Android SDK: " e else e

/-- A trace and a result stop at the first failure: up to the first call that returned an
error nothing is required; at that call the result is the error `returnedFor` gives, and
every later call is diagnostic and returns no error. -/
def FailStop : List Event → Outcome (Option GoError) → Prop
  | [], _ => True
  | ev :: rest, out =>
    match ev.err with
    | none => FailStop rest out
    | some e => out = .returned (some (returnedFor ev.call e)) ∧
        ∀ x ∈ rest, x.call.isDiagnostic = true ∧ x.err = none

/-- The run of `gendex` stops at its first failure. -/
def Run.FailStop (r : Run (Option GoError)) : Prop := Gendex.FailStop r.trace r.out

/-! ## The runs of `gendex`, listed -/

/-- The values a run of `gendex` works with: the two it is given and those its calls
return. A run that ends early does not use the later ones. -/
structure Values where
  tmpdir : String
  outfile : String
  home : String
  javaFiles : List String
  platform : String
  buildTools : String
  src : List Byte
  text : List Char

/-- The argument list of the compiler process. -/
def javacArgs (v : Values) : List String :=
  ["javac", "-source", "1.8", "-target", "1.8",
    "-bootclasspath", v.platform ++ "/android.jar", "-d", v.tmpdir ++ "/work"] ++ v.javaFiles

/-- The argument list of the linker process. -/
def dxArgs (v : Values) : List String :=
  [v.buildTools ++ "/dx", "--dex", "--output=" ++ v.tmpdir ++ "/classes.dex",
    v.tmpdir ++ "/work"]

/-- The calls up to and including a successful source glob. -/
def prepared (v : Values) : List Event :=
  [⟨.androidHome, none⟩, ⟨.mkdirAll (v.tmpdir ++ "/work/org/golang/app") 0o775, none⟩,
    ⟨.glob "../../app/*.java", none⟩]

/-- The calls up to and including a successful compilation. -/
def compiled (v : Values) : List Event :=
  prepared v ++
    [⟨.osOpen (v.home ++ "/platforms"), none⟩, ⟨.readdirnames (v.home ++ "/platforms") (-1), none⟩,
      ⟨.combinedOutput (javacArgs v), none⟩]

/-- The calls up to and including a successful link. -/
def linked (v : Values) : List Event :=
  compiled v ++
    [⟨.osOpen (v.home ++ "/build-tools"), none⟩,
      ⟨.readdirnames (v.home ++ "/build-tools") (-1), none⟩,
      ⟨.combinedOutput (dxArgs v), none⟩]

/-- The calls up to and including a successful formatting. -/
def formatted (v : Values) : List Event :=
  linked v ++
    [⟨.readFile (v.tmpdir ++ "/classes.dex"), none⟩,
      ⟨.formatSource (formatterInput v.src), none⟩]

/-- The ways a run of `gendex` can end: at the call that failed, with the error it returned
(and, for a process, its output); in a panic of one of the two directory lookups; or in
success. -/
inductive Ending where
  | sdkFails (e : GoError)
  | mkdirFails (e : GoError)
  | globFails (e : GoError)
  | noSources
  | platformOpenFails (e : GoError)
  | platformListFails (e : GoError)
  | platformPanics (msg : String)
  | javacFails (out : List Byte) (e : GoError)
  | toolsOpenFails (e : GoError)
  | toolsListFails (e : GoError)
  | toolsPanics (msg : String)
  | dxFails (out : List Byte) (e : GoError)
  | readFails (e : GoError)
  | formatFails (e : GoError)
  | createFails (e : GoError)
  | writeFails (e : GoError)
  | closeFails (e : GoError)
  | success

/-- The run that goes with an ending. `gendex_cases` shows that every run of `gendex` is
one of these. -/
def Ending.run (v : Values) : Ending → Run (Option GoError)
  | .sdkFails e =>
    ⟨[⟨.androidHome, some e⟩], .returned (some (.wrapped "couldn't find Android SDK: " e))⟩
  | .mkdirFails e =>
    ⟨[⟨.androidHome, none⟩, ⟨.mkdirAll (v.tmpdir ++ "/work/org/golang/app") 0o775, some e⟩],
      .returned (some e)⟩
  | .globFails e =>
    ⟨[⟨.androidHome, none⟩, ⟨.mkdirAll (v.tmpdir ++ "/work/org/golang/app") 0o775, none⟩,
        ⟨.glob "../../app/*.java", some e⟩],
      .returned (some e)⟩
  | .noSources =>
    ⟨prepared v, .returned (some (.errorsNew "could not find ../../app/*.java files"))⟩
  | .platformOpenFails e =>
    ⟨prepared v ++ [⟨.osOpen (v.home ++ "/platforms"), some e⟩], .returned (some e)⟩
  | .platformListFails e =>
    ⟨prepared v ++ [⟨.osOpen (v.home ++ "/platforms"), none⟩,
        ⟨.readdirnames (v.home ++ "/platforms") (-1), some e⟩],
      .returned (some e)⟩
  | .platformPanics msg =>
    ⟨prepared v ++ [⟨.osOpen (v.home ++ "/platforms"), none⟩,
        ⟨.readdirnames (v.home ++ "/platforms") (-1), none⟩],
      .panicked msg⟩
  | .javacFails out e =>
    ⟨prepared v ++ [⟨.osOpen (v.home ++ "/platforms"), none⟩,
        ⟨.readdirnames (v.home ++ "/platforms") (-1), none⟩,
        ⟨.combinedOutput (javacArgs v), some e⟩, ⟨.println (javacArgs v), none⟩,
        ⟨.stderrWrite out, none⟩],
      .returned (some e)⟩
  | .toolsOpenFails e =>
    ⟨compiled v ++ [⟨.osOpen (v.home ++ "/build-tools"), some e⟩], .returned (some e)⟩
  | .toolsListFails e =>
    ⟨compiled v ++ [⟨.osOpen (v.home ++ "/build-tools"), none⟩,
        ⟨.readdirnames (v.home ++ "/build-tools") (-1), some e⟩],
      .returned (some e)⟩
  | .toolsPanics msg =>
    ⟨compiled v ++ [⟨.osOpen (v.home ++ "/build-tools"), none⟩,
        ⟨.readdirnames (v.home ++ "/build-tools") (-1), none⟩],
      .panicked msg⟩
  | .dxFails out e =>
    ⟨compiled v ++ [⟨.osOpen (v.home ++ "/build-tools"), none⟩,
        ⟨.readdirnames (v.home ++ "/build-tools") (-1), none⟩,
        ⟨.combinedOutput (dxArgs v), some e⟩, ⟨.stderrWrite out, none⟩],
      .returned (some e)⟩
  | .readFails e =>
    ⟨linked v ++ [⟨.readFile (v.tmpdir ++ "/classes.dex"), some e⟩], .returned (some e)⟩
  | .formatFails e =>
    ⟨linked v ++ [⟨.readFile (v.tmpdir ++ "/classes.dex"), none⟩,
        ⟨.formatSource (formatterInput v.src), some e⟩,
        ⟨.bufWriteToStderr (formatterInput v.src), none⟩],
      .returned (some e)⟩
  | .createFails e =>
    ⟨formatted v ++ [⟨.create v.outfile, some e⟩], .returned (some e)⟩
  | .writeFails e =>
    ⟨formatted v ++ [⟨.create v.outfile, none⟩, ⟨.write v.outfile v.text, some e⟩],
      .returned (some e)⟩
  | .closeFails e =>
    ⟨formatted v ++ [⟨.create v.outfile, none⟩, ⟨.write v.outfile v.text, none⟩,
        ⟨.close v.outfile, some e⟩],
      .returned (some e)⟩
  | .success =>
    ⟨formatted v ++ [⟨.create v.outfile, none⟩, ⟨.write v.outfile v.text, none⟩,
        ⟨.close v.outfile, none⟩],
      .returned none⟩

/-! ## Sample inputs -/

/-- The four bytes `0x64 0x65 0x78 0x0A`. -/
def dexSample : List Byte := [0x64, 0x65, 0x78, 0x0A]

/-- Fifty-four zero bytes; their base64 text has 72 characters. -/
def zeros54 : List Byte := List.replicate 54 0

/-- A world in which every call succeeds: the SDK is at `/sdk` with two platforms and two
build-tools versions, one Java source is found, the linker leaves `dexSample` in
`classes.dex`, and the formatter returns its input. -/
def envOk : Env where
  outfile := "dex.go"
  tempDir := .ok "/tmp/gendex-1"
  androidHome := .ok "/sdk"
  mkdirAll := fun _ => none
  glob := fun _ => .ok ["../../app/GoNativeActivity.java"]
  osOpen := fun _ => none
  readdirnames := fun p =>
    if p = "/sdk/platforms" then .ok ["android-33", "android-34"] else .ok ["33.0.2", "34.0.0"]
  combinedOutput := fun _ => ([], none)
  readFile := fun _ => .ok dexSample
  formatSource := fun text => .ok text
  create := fun _ => none
  write := fun _ _ => none
  close := fun _ => none
  removeAll := fun _ => none

/-- As `envOk`, but the listing of `/sdk/platforms` comes back in the order
`android-34`, `android-33`. -/
def envUnsorted : Env :=
  { envOk with
    readdirnames := fun p =>
      if p = "/sdk/platforms" then .ok ["android-34", "android-33"] else .ok ["33.0.2", "34.0.0"] }

/-- As `envOk`, but `/sdk/platforms` has no children. -/
def envEmptyPlatforms : Env :=
  { envOk with
    readdirnames := fun p => if p = "/sdk/platforms" then .ok [] else .ok ["33.0.2", "34.0.0"] }

/-- As `envOk`, but the source glob matches nothing. -/
def envNoSources : Env := { envOk with glob := fun _ => .ok [] }

/-- As `envOk`, but the SDK is not found. -/
def envNoSdk : Env := { envOk with androidHome := .error (.ofCall "ANDROID_HOME not set") }

/-- As `envOk`, but every process exits with a failure; `javac` is the first to run. -/
def envJavacFails : Env :=
  { envOk with combinedOutput := fun _ => ([], some (.ofCall "exit status 1")) }

/-- As `envOk`, but writing to the output file fails. -/
def envWriteFails : Env :=
  { envOk with write := fun _ _ => some (.ofCall "write dex.go: no space left on device") }

/-! ## Properties of the chunking loop -/

/-- Invariant rule for the loop: a property that holds before the loop and is kept by every
pass made with `len(data) > 0` holds when the loop is left. -/
theorem chunkLoop_invariant (P : LoopState → Prop)
    (hstep : ∀ s, 0 < s.data.length → P s → P (loopBody s)) :
    ∀ s, P s → P (chunkLoop s) := by
  intro s
  induction s using chunkLoop.induct with
  | case1 s hpos ih =>
    intro hs
    rw [chunkLoop, if_pos hpos]
    exact ih (hstep s hpos hs)
  | case2 s hneg =>
    intro hs
    rw [chunkLoop, if_neg hneg]
    exact hs

/-- The loop is left with `data` empty. -/
theorem chunkLoop_data (s : LoopState) : (chunkLoop s).data = [] := by
  induction s using chunkLoop.induct with
  | case1 s hpos ih => rw [chunkLoop, if_pos hpos]; exact ih
  | case2 s hneg =>
    rw [chunkLoop, if_neg hneg]
    exact List.length_eq_zero.mp (by omega)

/-- Every pass keeps `pieces` followed by `data` equal to the text the loop started with. -/
theorem chunkLoop_flatten (s : LoopState) :
    (chunkLoop s).pieces.flatten = s.pieces.flatten ++ s.data := by
  have key := chunkLoop_invariant
    (fun t => t.pieces.flatten ++ t.data = s.pieces.flatten ++ s.data) ?_ s rfl
  · simpa [chunkLoop_data] using key
  · intro t _ ht
    simp only [loopBody, List.flatten_append, List.flatten_cons, List.flatten_nil,
      List.append_nil, List.append_assoc, List.take_append_drop]
    exact ht

/-- The buffer grows by exactly one line per piece. -/
theorem chunkLoop_buf (s : LoopState) (b0 : List Char)
    (h : s.buf = b0 ++ s.pieces.flatMap (fun c => "\t`".toList ++ c ++ "` + \n".toList)) :
    (chunkLoop s).buf =
      b0 ++ (chunkLoop s).pieces.flatMap (fun c => "\t`".toList ++ c ++ "` + \n".toList) := by
  refine chunkLoop_invariant
    (fun t => t.buf = b0 ++ t.pieces.flatMap (fun c => "\t`".toList ++ c ++ "` + \n".toList))
    ?_ s h
  intro t _ ht
  simp only [loopBody, ht, List.flatMap_append, List.flatMap_cons, List.flatMap_nil,
    List.append_nil, List.append_assoc]

theorem loopBody_lengthInv (s : LoopState) (hpos : 0 < s.data.length) (h : LengthInv s) :
    LengthInv (loopBody s) := by
  obtain ⟨h1, _, h3⟩ := h
  have h70 := h3 hpos
  refine ⟨?_, ?_, ?_⟩
  · intro c hc
    simp only [loopBody, List.mem_append, List.mem_singleton] at hc
    rcases hc with hc | hc
    · exact h1 c hc
    · subst hc
      split <;> simp [List.length_take] <;> omega
  · intro c hc
    simp only [loopBody, List.dropLast_concat] at hc
    exact h70 c hc
  · intro hd c hc
    simp only [loopBody, List.mem_append, List.mem_singleton] at hc hd
    rcases hc with hc | hc
    · exact h70 c hc
    · subst hc
      by_cases hlt : 70 > s.data.length
      · simp [hlt] at hd
      · simp only [if_neg hlt, List.length_take]
        omega

theorem chunkLoop_lengthInv (s : LoopState) (h : LengthInv s) : LengthInv (chunkLoop s) :=
  chunkLoop_invariant LengthInv loopBody_lengthInv s h

/-! ## Properties of the base64 model -/

theorem decodeMap_getD (i : Fin 64) : decodeMap (encodeStd.getD i.val 'A') = some i.val := by
  revert i
  decide

theorem getD_ne_padChar (i : Fin 64) : encodeStd.getD i.val 'A' ≠ padChar := by
  revert i
  decide

theorem getD_mem (i : Fin 64) : encodeStd.getD i.val 'A' ∈ encodeStd := by
  revert i
  decide

theorem decodeMap_encodeChar (v : Nat) : decodeMap (encodeChar v) = some (v % 64) :=
  decodeMap_getD ⟨v % 64, Nat.mod_lt v (by decide)⟩

theorem encodeChar_ne_padChar (v : Nat) : encodeChar v ≠ padChar :=
  getD_ne_padChar ⟨v % 64, Nat.mod_lt v (by decide)⟩

theorem encodeChar_mem (v : Nat) : encodeChar v ∈ encodeStd :=
  getD_mem ⟨v % 64, Nat.mod_lt v (by decide)⟩

/-- Decoding inverts encoding, for every byte sequence. -/
theorem DecodeString_EncodeToString (src : List Byte) :
    DecodeString (EncodeToString src) = some src := by
  induction src using EncodeToString.induct with
  | case1 => rfl
  | case2 a =>
    have ha := a.isLt
    simp only [EncodeToString, DecodeString, decodeMap_encodeChar, if_true, ne_eq,
      not_true_eq_false, if_false, Option.some.injEq, List.cons.injEq, and_true]
    apply Fin.ext
    simp only [byteOf]
    omega
  | case3 a b =>
    have ha := a.isLt
    have hb := b.isLt
    simp only [EncodeToString, DecodeString, decodeMap_encodeChar, if_true, ne_eq,
      not_true_eq_false, if_false, encodeChar_ne_padChar, Option.some.injEq, List.cons.injEq,
      and_true]
    refine ⟨Fin.ext ?_, Fin.ext ?_⟩ <;> simp only [byteOf] <;> omega
  | case4 a b c rest ih =>
    have ha := a.isLt
    have hb := b.isLt
    have hc := c.isLt
    simp only [EncodeToString, DecodeString, decodeMap_encodeChar, encodeChar_ne_padChar,
      if_false, ih, Option.map_some', Option.some.injEq, List.cons.injEq, and_true]
    refine ⟨Fin.ext ?_, Fin.ext ?_, Fin.ext ?_⟩ <;> simp only [byteOf] <;> omega

/-- Every character of the encoded text is in the alphabet or is the padding character. -/
theorem EncodeToString_chars (src : List Byte) :
    ∀ ch ∈ EncodeToString src, ch ∈ encodeStd ∨ ch = padChar := by
  induction src using EncodeToString.induct with
  | case1 => simp [EncodeToString]
  | case2 a =>
    intro ch hch
    simp only [EncodeToString, List.mem_cons, List.mem_singleton, List.not_mem_nil,
      or_false] at hch
    rcases hch with h | h | h | h <;> subst h <;> simp [encodeChar_mem]
  | case3 a b =>
    intro ch hch
    simp only [EncodeToString, List.mem_cons, List.mem_singleton, List.not_mem_nil,
      or_false] at hch
    rcases hch with h | h | h | h <;> subst h <;> simp [encodeChar_mem]
  | case4 a b c rest ih =>
    intro ch hch
    simp only [EncodeToString, List.mem_cons] at hch
    rcases hch with h | h | h | h | h
    · subst h; simp [encodeChar_mem]
    · subst h; simp [encodeChar_mem]
    · subst h; simp [encodeChar_mem]
    · subst h; simp [encodeChar_mem]
    · exact ih ch h

/-! ## The emitted chunks -/

/-- The pieces, put together in order, are the base64 text of the bytes. -/
theorem emittedChunks_flatten (src : List Byte) :
    (emittedChunks src).flatten = EncodeToString src := by
  simp [emittedChunks, encodeAndEmit, chunkLoop_flatten]

theorem emittedChunks_lengthInv (src : List Byte) :
    LengthInv (chunkLoop { buf := header, data := EncodeToString src, pieces := [] }) := by
  apply chunkLoop_lengthInv
  simp [LengthInv]

theorem mem_emittedChunks_chars (src : List Byte) (c : List Char) (hc : c ∈ emittedChunks src)
    (ch : Char) (hch : ch ∈ c) : ch ∈ encodeStd ∨ ch = padChar := by
  apply EncodeToString_chars src
  rw [← emittedChunks_flatten]
  exact List.mem_flatten.mpr ⟨c, hc, hch⟩

theorem emittedChunks_dexSample : emittedChunks dexSample = ["ZGV4Cg==".toList] := by
  simp [emittedChunks, encodeAndEmit, chunkLoop, loopBody, dexSample, EncodeToString]
  decide

theorem emittedChunks_zeros54 :
    emittedChunks zeros54 = [List.replicate 70 'A', ['A', 'A']] := by
  simp [emittedChunks, encodeAndEmit, chunkLoop, loopBody, zeros54, EncodeToString]
  decide

theorem isBase64Char_of_mem : ∀ ch ∈ encodeStd, IsBase64Char ch := by decide

theorem isBase64Char_not_special (ch : Char) (h : IsBase64Char ch) :
    ch ≠ backquote ∧ ch ≠ '\n' ∧ ch ≠ '\r' := by
  refine ⟨?_, ?_, ?_⟩ <;> rintro rfl <;> revert h <;> decide

/-! ## Reading the chunks back from the buffer -/

/-- The buffer handed to the formatter: the header, one line per emitted piece, and the
final empty literal. -/
theorem formatterInput_eq_lines (src : List Byte) :
    formatterInput src =
      header ++ (emittedChunks src).flatMap (fun c => "\t`".toList ++ c ++ "` + \n".toList)
        ++ "\t``".toList := by
  simp only [formatterInput, emittedChunks, encodeAndEmit]
  rw [chunkLoop_buf _ header (by simp)]

/-- Outside a literal, text without a back quote is passed over. -/
theorem scanLiterals_skip (pre rest : List Char) (h : backquote ∉ pre) :
    scanLiterals none (pre ++ rest) = scanLiterals none rest := by
  induction pre with
  | nil => rfl
  | cons ch pre ih =>
    have hch : ch ≠ backquote := fun e => h (by simp [e])
    have hpre : backquote ∉ pre := fun e => h (List.mem_cons_of_mem _ e)
    simp only [List.cons_append, scanLiterals, if_neg hch]
    exact ih hpre

/-- Inside a literal, text without a back quote is collected up to the closing back quote. -/
theorem scanLiterals_collect (acc c rest : List Char) (h : backquote ∉ c) :
    scanLiterals (some acc) (c ++ backquote :: rest) = (acc ++ c) :: scanLiterals none rest := by
  induction c generalizing acc with
  | nil => simp [scanLiterals]
  | cons ch c ih =>
    have hch : ch ≠ backquote := fun e => h (by simp [e])
    have hc : backquote ∉ c := fun e => h (List.mem_cons_of_mem _ e)
    have step : scanLiterals (some acc) ((ch :: c) ++ backquote :: rest)
        = scanLiterals (some (acc ++ [ch])) (c ++ backquote :: rest) := by
      rw [List.cons_append, scanLiterals, if_neg hch]
    rw [step, ih (acc ++ [ch]) hc]
    simp

/-- One line of the buffer gives back the piece written in it. -/
theorem scanLiterals_line (c rest : List Char) (h : backquote ∉ c) :
    scanLiterals none (("\t`".toList ++ c ++ "` + \n".toList) ++ rest)
      = c :: scanLiterals none rest := by
  have h1 : ("\t`".toList ++ c ++ "` + \n".toList) ++ rest
      = '\t' :: backquote :: (c ++ backquote :: (" + \n".toList ++ rest)) := by
    simp [backquote]
  have h2 : scanLiterals none ('\t' :: backquote :: (c ++ backquote :: (" + \n".toList ++ rest)))
      = scanLiterals (some []) (c ++ backquote :: (" + \n".toList ++ rest)) := by
    rfl
  rw [h1, h2, scanLiterals_collect [] c _ h, List.nil_append]
  exact congrArg (List.cons c) (scanLiterals_skip " + \n".toList rest (by decide))

/-- The lines of the buffer give back the pieces written in them, in order. -/
theorem scanLiterals_lines (cs : List (List Char)) (rest : List Char)
    (h : ∀ c ∈ cs, backquote ∉ c) :
    scanLiterals none
        (cs.flatMap (fun c => "\t`".toList ++ c ++ "` + \n".toList) ++ rest)
      = cs ++ scanLiterals none rest := by
  induction cs with
  | nil => rfl
  | cons c cs ih =>
    have hc : backquote ∉ c := h c (by simp)
    have hcs : ∀ d ∈ cs, backquote ∉ d := fun d hd => h d (List.mem_cons_of_mem _ hd)
    rw [List.flatMap_cons, List.append_assoc, scanLiterals_line c _ hc, ih hcs]
    rfl

/-- No emitted piece holds a back quote. -/
theorem backquote_not_mem_chunk (src : List Byte) (c : List Char)
    (hc : c ∈ emittedChunks src) : backquote ∉ c := by
  intro hmem
  have hchar : IsBase64Char backquote := by
    rcases mem_emittedChunks_chars src c hc backquote hmem with h | h
    · exact isBase64Char_of_mem _ h
    · rw [h]; decide
  exact (isBase64Char_not_special _ hchar).1 rfl

/-- The texts between back quotes in the buffer are the emitted pieces and then the empty
literal that closes the expression. -/
theorem backquotedTexts_formatterInput (src : List Byte) :
    backquotedTexts (formatterInput src) = emittedChunks src ++ [[]] := by
  rw [formatterInput_eq_lines, backquotedTexts, List.append_assoc,
    scanLiterals_skip header _ (by decide),
    scanLiterals_lines _ _ (backquote_not_mem_chunk src)]
  rfl

/-! ## Claims about the encoding and the chunks -/

/-- C1: for every byte sequence read as the DEX artifact, the texts written between back
quotes in the buffer `gendex` builds are the chunks the loop emitted followed by the final
empty literal; leaving that last one out and concatenating the rest in order gives text
that decodes as standard-alphabet base64 to exactly the original bytes. -/
theorem chunks_decode_to_source (src : List Byte) :
    backquotedTexts (formatterInput src) = emittedChunks src ++ [[]] ∧
      DecodeString (backquotedTexts (formatterInput src)).dropLast.flatten = some src ∧
      DecodeString (emittedChunks src).flatten = some src := by
  have hwritten := backquotedTexts_formatterInput src
  refine ⟨hwritten, ?_, ?_⟩
  · rw [hwritten, List.dropLast_concat, emittedChunks_flatten]
    exact DecodeString_EncodeToString src
  · rw [emittedChunks_flatten]
    exact DecodeString_EncodeToString src

/-- C2: every chunk the loop emits is non-empty and has at most 70 characters, and every
chunk other than the last has exactly 70. -/
theorem chunk_width (src : List Byte) (c : List Char) (hc : c ∈ emittedChunks src) :
    0 < c.length ∧ c.length ≤ 70 ∧ (c ∈ (emittedChunks src).dropLast → c.length = 70) := by
  obtain ⟨h1, h2, _⟩ := emittedChunks_lengthInv src
  exact ⟨(h1 c hc).1, (h1 c hc).2, h2 c⟩

/-- Witness for C2: the 54 zero bytes give a chunk of seventy `A`s that is not the last. -/
theorem chunk_width_witness :
    List.replicate 70 'A' ∈ emittedChunks zeros54 ∧
    List.replicate 70 'A' ∈ (emittedChunks zeros54).dropLast ∧
    (List.replicate 70 'A').length = 70 :=
  have hmem : List.replicate 70 'A' ∈ emittedChunks zeros54 := by
    rw [emittedChunks_zeros54]; simp
  have hdrop : List.replicate 70 'A' ∈ (emittedChunks zeros54).dropLast := by
    rw [emittedChunks_zeros54]; simp
  ⟨hmem, hdrop, (chunk_width zeros54 (List.replicate 70 'A') hmem).2.2 hdrop⟩

/-- C8: the text handed to the formatter is the header, then one line
TAB backquote chunk backquote SPACE `+` SPACE NEWLINE per chunk of the base64 text in order,
then TAB and the empty literal; for the empty payload it is the header and the empty literal
alone, and for the payload `0x64 0x65 0x78 0x0A` the only chunk literal is `ZGV4Cg==`. -/
theorem formatterInput_layout (src : List Byte) :
    formatterInput src =
        header ++ (emittedChunks src).flatMap (fun c => "\t`".toList ++ c ++ "` + \n".toList)
          ++ "\t``".toList ∧
      (emittedChunks src).flatten = EncodeToString src ∧
      formatterInput [] = header ++ "\t``".toList ∧
      emittedChunks dexSample = ["ZGV4Cg==".toList] ∧
      formatterInput dexSample = header ++ "\t`ZGV4Cg==` + \n".toList ++ "\t``".toList := by
  have layout : ∀ s : List Byte, formatterInput s =
      header ++ (emittedChunks s).flatMap (fun c => "\t`".toList ++ c ++ "` + \n".toList)
        ++ "\t``".toList := by
    intro s
    simp only [formatterInput, emittedChunks, encodeAndEmit]
    rw [chunkLoop_buf _ header (by simp)]
  refine ⟨layout src, emittedChunks_flatten src, ?_, emittedChunks_dexSample, ?_⟩
  · rw [layout]
    simp [emittedChunks, encodeAndEmit, chunkLoop, EncodeToString]
  · rw [layout, emittedChunks_dexSample]
    simp

/-- C10: every chunk the loop emits consists only of characters of the standard base64
alphabet (`A`-`Z`, `a`-`z`, `0`-`9`, `+`, `/`, `=`); so it holds no back quote and no
newline, and the chunk between back quotes is one complete raw string literal whose value
is the chunk. -/
theorem chunk_is_raw_literal (src : List Byte) (c : List Char) (hc : c ∈ emittedChunks src) :
    (∀ ch ∈ c, IsBase64Char ch) ∧ backquote ∉ c ∧ '\n' ∉ c ∧
      rawStringLiteral ([backquote] ++ c ++ [backquote]) = some c := by
  have hchars : ∀ ch ∈ c, IsBase64Char ch := by
    intro ch hch
    rcases mem_emittedChunks_chars src c hc ch hch with h | h
    · exact isBase64Char_of_mem ch h
    · subst h; decide
  have hbq : backquote ∉ c := fun h => (isBase64Char_not_special _ (hchars _ h)).1 rfl
  have hnl : '\n' ∉ c := fun h => (isBase64Char_not_special _ (hchars _ h)).2.1 rfl
  refine ⟨hchars, hbq, hnl, ?_⟩
  have hcr : ∀ ch ∈ c, ch ≠ '\r' := fun ch h => (isBase64Char_not_special _ (hchars _ h)).2.2
  simp only [rawStringLiteral, List.singleton_append, List.cons_append, List.nil_append]
  rw [if_pos]
  · simp only [List.dropLast_concat, Option.some.injEq, List.filter_eq_self]
    intro ch hch
    simpa using hcr ch hch
  · simp [hbq]

/-- Witness for C10: the chunk `ZGV4Cg==` of the four-byte payload. -/
theorem chunk_is_raw_literal_witness :
    "ZGV4Cg==".toList ∈ emittedChunks dexSample ∧
    rawStringLiteral ([backquote] ++ "ZGV4Cg==".toList ++ [backquote]) = some "ZGV4Cg==".toList :=
  have hmem : "ZGV4Cg==".toList ∈ emittedChunks dexSample := by
    rw [emittedChunks_dexSample]; simp
  ⟨hmem, (chunk_is_raw_literal dexSample "ZGV4Cg==".toList hmem).2.2.2⟩

/-! ## `findLast` -/

/-- The index expression `children[len(children)-1]` on a non-empty slice gives its last
element. -/
theorem goIndex_last (children : List String) (n : String)
    (h : children.getLast? = some n) :
    goIndex children ((children.length : Int) - 1) = ⟨[], .returned n⟩ := by
  have hne : children ≠ [] := by
    rintro rfl
    simp at h
  have hlen : 0 < children.length := List.length_pos.mpr hne
  have hidx : ((children.length : Int) - 1).toNat = children.length - 1 := by omega
  have hnonneg : (0 : Int) ≤ (children.length : Int) - 1 := by omega
  rw [List.getLast?_eq_getElem?] at h
  simp only [goIndex, if_pos hnonneg, hidx, h]
  rfl

/-- The four ways `findLast` can end: the open fails, the listing fails, the listing is
empty, or the listing is non-empty. -/
theorem findLast_cases (env : Env) (path : String) :
    (∃ e, findLast env path = ⟨[⟨.osOpen path, some e⟩], .returned (.error e)⟩) ∨
    (∃ e, findLast env path =
      ⟨[⟨.osOpen path, none⟩, ⟨.readdirnames path (-1), some e⟩], .returned (.error e)⟩) ∨
    (∃ msg, findLast env path =
      ⟨[⟨.osOpen path, none⟩, ⟨.readdirnames path (-1), none⟩], .panicked msg⟩) ∨
    (∃ p, findLast env path =
      ⟨[⟨.osOpen path, none⟩, ⟨.readdirnames path (-1), none⟩], .returned (.ok p)⟩) := by
  unfold findLast
  rcases h1 : env.osOpen path with _ | e
  · rcases h2 : env.readdirnames path with e | children
    · right; left
      exact ⟨e, by simp [osOpen, fileReaddirnames, perform, bind, Run.bind, pure, h1, h2, errOf]⟩
    · right; right
      rcases h3 : children.getLast? with _ | n
      · left
        have : children = [] := List.getLast?_eq_none_iff.mp h3
        subst this
        exact ⟨"runtime error: index out of range", by
          simp [osOpen, fileReaddirnames, perform, bind, Run.bind, pure, h1, h2, errOf,
            goIndex, goPanic]⟩
      · right
        exact ⟨path ++ "/" ++ n, by
          simp [osOpen, fileReaddirnames, perform, bind, Run.bind, pure, h1, h2, errOf,
            goIndex_last children n h3]⟩
  · left
    exact ⟨e, by simp [osOpen, perform, bind, Run.bind, pure, h1]⟩

/-- On a directory that opens and lists, with a non-empty listing, `findLast` returns the
path of the last name of the listing. -/
theorem findLast_eq_last (env : Env) (path : String) (children : List String) (n : String)
    (hopen : env.osOpen path = none) (hlist : env.readdirnames path = .ok children)
    (hlast : children.getLast? = some n) :
    findLast env path =
      ⟨[⟨.osOpen path, none⟩, ⟨.readdirnames path (-1), none⟩],
        .returned (.ok (path ++ "/" ++ n))⟩ := by
  simp [findLast, osOpen, fileReaddirnames, perform, bind, Run.bind, pure, hopen, hlist,
    errOf, goIndex_last children n hlast]

/-- In a list sorted in ascending order the last element is the greatest. -/
theorem le_getLast_of_sorted (l : List String) (n : String)
    (hs : l.Pairwise (fun a b => a ≤ b)) (hlast : l.getLast? = some n) :
    ∀ m ∈ l, m ≤ n := by
  induction l with
  | nil => simp
  | cons a t ih =>
    rw [List.pairwise_cons] at hs
    intro m hm
    rcases t with _ | ⟨b, t'⟩
    · simp at hlast hm
      rw [hm, hlast]
    · have hlast' : (b :: t').getLast? = some n := by
        simpa [List.getLast?_cons_cons] using hlast
      rcases List.mem_cons.mp hm with rfl | hm'
      · exact hs.1 n (List.mem_of_getLast?_eq_some hlast')
      · exact ih hs.2 hlast' m hm'

/-- C3, counterexample: the listing `android-34`, `android-33` is non-empty, and `findLast`
does not return the path of its lexicographically greatest name. -/
theorem findLast_not_maximal :
    envUnsorted.osOpen "/sdk/platforms" = none ∧
    envUnsorted.readdirnames "/sdk/platforms" = .ok ["android-34", "android-33"] ∧
    ¬ ∃ n ∈ ["android-34", "android-33"],
        (∀ m ∈ ["android-34", "android-33"], m ≤ n) ∧
        (findLast envUnsorted "/sdk/platforms").out
          = .returned (.ok ("/sdk/platforms" ++ "/" ++ n)) := by
  refine ⟨rfl, rfl, ?_⟩
  rintro ⟨n, hn, hmax, hout⟩
  have hrun : (findLast envUnsorted "/sdk/platforms").out
      = .returned (.ok "/sdk/platforms/android-33") := by rfl
  rw [hrun] at hout
  simp only [List.mem_cons, List.mem_singleton, List.not_mem_nil, or_false] at hn
  rcases hn with rfl | rfl
  · revert hout
    decide
  · have h := hmax "android-34" (by simp)
    rw [← not_lt, String.lt_iff_toList_lt] at h
    exact h (by decide)

/-- C3, amended: on a directory that opens and whose listing is non-empty, `findLast`
returns `path + "/" + n` where `n` is the last name in the order the listing returns; when
that order is ascending, `n` is the lexicographically greatest name. -/
theorem findLast_returns_last (env : Env) (path : String) (children : List String)
    (hopen : env.osOpen path = none) (hlist : env.readdirnames path = .ok children)
    (hne : children ≠ []) :
    ∃ n, children.getLast? = some n ∧ n ∈ children ∧
      (findLast env path).out = .returned (.ok (path ++ "/" ++ n)) ∧
      (children.Pairwise (fun a b => a ≤ b) → ∀ m ∈ children, m ≤ n) := by
  obtain ⟨n, hn⟩ : ∃ n, children.getLast? = some n := by
    rcases h : children.getLast? with _ | n
    · exact absurd (List.getLast?_eq_none_iff.mp h) hne
    · exact ⟨n, rfl⟩
  refine ⟨n, hn, List.mem_of_getLast?_eq_some hn, ?_, fun hs => le_getLast_of_sorted _ _ hs hn⟩
  rw [findLast_eq_last env path children n hopen hlist hn]

/-- Witness for C3, amended: the platforms directory of `envOk`, listed in ascending
order. -/
theorem findLast_returns_last_witness :
    ∃ n, ["android-33", "android-34"].getLast? = some n ∧ n ∈ ["android-33", "android-34"] ∧
      (findLast envOk "/sdk/platforms").out = .returned (.ok ("/sdk/platforms" ++ "/" ++ n)) ∧
      (["android-33", "android-34"].Pairwise (fun a b => a ≤ b) →
        ∀ m ∈ ["android-33", "android-34"], m ≤ n) :=
  findLast_returns_last envOk "/sdk/platforms" ["android-33", "android-34"] rfl rfl
    (by decide)

/-- C4: on a directory that opens and lists with zero children, `findLast` makes the two
calls and then panics; it returns neither a path nor an error. With an empty platforms
directory `gendex` panics too, before any process is started. -/
theorem findLast_empty_panics :
    envEmptyPlatforms.osOpen "/sdk/platforms" = none ∧
    envEmptyPlatforms.readdirnames "/sdk/platforms" = .ok [] ∧
    findLast envEmptyPlatforms "/sdk/platforms" =
      ⟨[⟨.osOpen "/sdk/platforms", none⟩, ⟨.readdirnames "/sdk/platforms" (-1), none⟩],
        .panicked "runtime error: index out of range"⟩ ∧
    (gendex envEmptyPlatforms "/tmp/gendex-1").out
      = .panicked "runtime error: index out of range" ∧
    (gendex envEmptyPlatforms "/tmp/gendex-1").trace.all (fun ev => !ev.call.isProcess)
      = true := by
  refine ⟨rfl, rfl, ?_, ?_, ?_⟩ <;> decide

/-! ## Sequencing -/

theorem mk_returned_bind {α β : Type} (tr : List Event) (a : α) (f : α → Run β) :
    (Run.mk tr (.returned a) >>= f) = (f a).prepend tr := rfl

theorem mk_panicked_bind {α β : Type} (tr : List Event) (msg : String) (f : α → Run β) :
    (Run.mk tr (.panicked msg) >>= f) = Run.mk tr (.panicked msg) := rfl

theorem mk_exited_bind {α β : Type} (tr : List Event) (code : Nat) (f : α → Run β) :
    (Run.mk tr (.exited code) >>= f) = Run.mk tr (.exited code) := rfl

theorem pure_eq_mk {α : Type} (a : α) : (pure a : Run α) = Run.mk [] (.returned a) := rfl

theorem prepend_mk {α : Type} (tr tr2 : List Event) (out : Outcome α) :
    (Run.mk tr2 out).prepend tr = Run.mk (tr ++ tr2) out := rfl

/-- Every run of `gendex` is one of the listed runs. -/
theorem gendex_cases (env : Env) (tmpdir : String) :
    ∃ v ending, v.tmpdir = tmpdir ∧ v.outfile = env.outfile ∧
      gendex env tmpdir = Ending.run v ending := by
  unfold gendex
  simp only [sdkpathAndroidHome, osMkdirAll, filepathGlob, cmdCombinedOutput, fmtPrintln,
    stderrWrite, ioutilReadFile, formatSource, bufWriteToStderr, osCreate, fileWrite, fileClose,
    perform, pure_eq_mk, mk_returned_bind, prepend_mk, List.append_nil, List.nil_append,
    List.singleton_append]
  -- the SDK lookup
  rcases env.androidHome with e | home
  · exact ⟨⟨tmpdir, env.outfile, "", [], "", "", [], []⟩, .sdkFails e, rfl, rfl, rfl⟩
  simp only [errOf]
  -- the work directory
  rcases env.mkdirAll (tmpdir ++ "/work/org/golang/app") with _ | e
  swap
  · exact ⟨⟨tmpdir, env.outfile, home, [], "", "", [], []⟩, .mkdirFails e, rfl, rfl, rfl⟩
  simp only [errOf]
  -- the source glob
  rcases env.glob "../../app/*.java" with e | javaFiles
  · exact ⟨⟨tmpdir, env.outfile, home, [], "", "", [], []⟩, .globFails e, rfl, rfl, rfl⟩
  simp only [errOf]
  by_cases h4 : javaFiles.length = 0
  · simp only [if_pos h4]
    exact ⟨⟨tmpdir, env.outfile, home, javaFiles, "", "", [], []⟩, .noSources, rfl, rfl, rfl⟩
  simp only [if_neg h4]
  -- the platform
  rcases findLast_cases env (home ++ "/platforms") with
    ⟨e, h5⟩ | ⟨e, h5⟩ | ⟨msg, h5⟩ | ⟨platform, h5⟩
  · rw [h5]
    exact ⟨⟨tmpdir, env.outfile, home, javaFiles, "", "", [], []⟩, .platformOpenFails e,
      rfl, rfl, rfl⟩
  · rw [h5]
    exact ⟨⟨tmpdir, env.outfile, home, javaFiles, "", "", [], []⟩, .platformListFails e,
      rfl, rfl, rfl⟩
  · rw [h5]
    exact ⟨⟨tmpdir, env.outfile, home, javaFiles, "", "", [], []⟩, .platformPanics msg,
      rfl, rfl, rfl⟩
  rw [h5]
  simp only [mk_returned_bind]
  -- the compiler
  generalize env.combinedOutput (["javac", "-source", "1.8", "-target", "1.8", "-bootclasspath",
    platform ++ "/android.jar", "-d", tmpdir ++ "/work"] ++ javaFiles) = res
  rcases res with ⟨out, _ | e⟩
  swap
  · exact ⟨⟨tmpdir, env.outfile, home, javaFiles, platform, "", [], []⟩, .javacFails out e,
      rfl, rfl, rfl⟩
  simp only []
  -- the build tools
  rcases findLast_cases env (home ++ "/build-tools") with
    ⟨e, h7⟩ | ⟨e, h7⟩ | ⟨msg, h7⟩ | ⟨buildTools, h7⟩
  · rw [h7]
    exact ⟨⟨tmpdir, env.outfile, home, javaFiles, platform, "", [], []⟩, .toolsOpenFails e,
      rfl, rfl, rfl⟩
  · rw [h7]
    exact ⟨⟨tmpdir, env.outfile, home, javaFiles, platform, "", [], []⟩, .toolsListFails e,
      rfl, rfl, rfl⟩
  · rw [h7]
    exact ⟨⟨tmpdir, env.outfile, home, javaFiles, platform, "", [], []⟩, .toolsPanics msg,
      rfl, rfl, rfl⟩
  rw [h7]
  simp only [mk_returned_bind]
  -- the linker
  generalize env.combinedOutput [buildTools ++ "/dx", "--dex",
    "--output=" ++ tmpdir ++ "/classes.dex", tmpdir ++ "/work"] = res
  rcases res with ⟨out, _ | e⟩
  swap
  · exact ⟨⟨tmpdir, env.outfile, home, javaFiles, platform, buildTools, [], []⟩,
      .dxFails out e, rfl, rfl, rfl⟩
  simp only []
  -- reading the DEX file
  rcases env.readFile (tmpdir ++ "/classes.dex") with e | src
  · exact ⟨⟨tmpdir, env.outfile, home, javaFiles, platform, buildTools, [], []⟩,
      .readFails e, rfl, rfl, rfl⟩
  simp only []
  -- the formatter
  rcases env.formatSource (formatterInput src) with e | text
  · exact ⟨⟨tmpdir, env.outfile, home, javaFiles, platform, buildTools, src, []⟩,
      .formatFails e, rfl, rfl, rfl⟩
  simp only []
  -- create, write, close
  rcases env.create env.outfile with _ | e
  swap
  · exact ⟨⟨tmpdir, env.outfile, home, javaFiles, platform, buildTools, src, text⟩,
      .createFails e, rfl, rfl, rfl⟩
  simp only []
  rcases env.write env.outfile text with _ | e
  swap
  · exact ⟨⟨tmpdir, env.outfile, home, javaFiles, platform, buildTools, src, text⟩,
      .writeFails e, rfl, rfl, rfl⟩
  simp only []
  rcases env.close env.outfile with _ | e
  · exact ⟨⟨tmpdir, env.outfile, home, javaFiles, platform, buildTools, src, text⟩,
      .success, rfl, rfl, rfl⟩
  · exact ⟨⟨tmpdir, env.outfile, home, javaFiles, platform, buildTools, src, text⟩,
      .closeFails e, rfl, rfl, rfl⟩

/-- The run of `gendex` stops at the first call that returns an error. -/
theorem gendex_failStop (env : Env) (tmpdir : String) : (gendex env tmpdir).FailStop := by
  obtain ⟨v, ending, -, -, h⟩ := gendex_cases env tmpdir
  rw [h]
  cases ending <;>
    simp [Ending.run, prepared, compiled, linked, formatted, Run.FailStop, FailStop,
      returnedFor, Call.isDiagnostic]

/-- Reading `FailStop` at a position of the trace: if the call there returned an error,
the result is that error (wrapped, for the SDK lookup), no earlier call returned an error,
and the later calls are diagnostic. -/
theorem failStop_split (out : Outcome (Option GoError)) (pre post : List Event) (ev : Event)
    (e : GoError) (h : FailStop (pre ++ ev :: post) out) (herr : ev.err = some e) :
    out = .returned (some (returnedFor ev.call e)) ∧
      (∀ x ∈ pre, x.err = none) ∧
      (∀ x ∈ post, x.call.isDiagnostic = true ∧ x.err = none) := by
  induction pre with
  | nil =>
    simp only [List.nil_append, FailStop, herr] at h
    exact ⟨h.1, by simp, h.2⟩
  | cons p pre ih =>
    simp only [List.cons_append, FailStop] at h
    rcases hp : p.err with _ | e2
    · rw [hp] at h
      obtain ⟨h1, h2, h3⟩ := ih h
      refine ⟨h1, ?_, h3⟩
      intro x hx
      rcases List.mem_cons.mp hx with rfl | hx
      · exact hp
      · exact h2 x hx
    · rw [hp] at h
      have := (h.2 ev (by simp)).2
      rw [herr] at this
      exact absurd this (by simp)

/-- The command name of the linker is never `javac`. -/
theorem append_dx_ne_javac (s : String) : s ++ "/dx" ≠ "javac" := by
  intro h
  have h3 := congrArg (fun t => t.toList.getLast?) h
  simp at h3

/-- When the compiler call fails, it is the only process of the run and the output file is
not created. -/
theorem javac_failure_is_final (env : Env) (tmpdir : String) :
    ∀ ev ∈ (gendex env tmpdir).trace, ev.err ≠ none → ev.call.isJavac = true →
      ∀ x ∈ (gendex env tmpdir).trace,
        (x.call.isProcess = true → x = ev) ∧ x.call.isCreate = false := by
  obtain ⟨v, ending, -, -, h⟩ := gendex_cases env tmpdir
  rw [h]
  cases ending <;>
    simp [Ending.run, prepared, compiled, linked, formatted, javacArgs, dxArgs, Call.isJavac,
      Call.isProcess, Call.isCreate, append_dx_ne_javac]

/-- When the formatter fails, the output file is not created. -/
theorem format_failure_is_final (env : Env) (tmpdir : String) :
    ∀ ev ∈ (gendex env tmpdir).trace, ev.err ≠ none → ev.call.isFormat = true →
      ∀ x ∈ (gendex env tmpdir).trace, x.call.isCreate = false := by
  obtain ⟨v, ending, -, -, h⟩ := gendex_cases env tmpdir
  rw [h]
  cases ending <;>
    simp [Ending.run, prepared, compiled, linked, formatted, Call.isFormat, Call.isCreate]

/-- What `main` does around `gendex`: after a return of `gendex`, with or without an error,
it removes the directory once; after a panic of `gendex` it does nothing more. -/
theorem main_eq (env : Env) :
    main env =
      match env.tempDir with
      | .error e => ⟨[⟨.tempDir "" "gendex-", some e⟩, ⟨.logFatal e, none⟩], .exited 1⟩
      | .ok tmpdir =>
        match (gendex env tmpdir).out with
        | .returned none =>
          ⟨⟨.tempDir "" "gendex-", none⟩ :: (gendex env tmpdir).trace
            ++ [⟨.removeAll tmpdir, env.removeAll tmpdir⟩], .returned ()⟩
        | .returned (some e) =>
          ⟨⟨.tempDir "" "gendex-", none⟩ :: (gendex env tmpdir).trace
            ++ [⟨.removeAll tmpdir, env.removeAll tmpdir⟩, ⟨.logFatal e, none⟩], .exited 1⟩
        | .panicked msg =>
          ⟨⟨.tempDir "" "gendex-", none⟩ :: (gendex env tmpdir).trace, .panicked msg⟩
        | .exited code =>
          ⟨⟨.tempDir "" "gendex-", none⟩ :: (gendex env tmpdir).trace, .exited code⟩ := by
  unfold main
  simp only [ioutilTempDir, osRemoveAll, perform, mk_returned_bind, pure_eq_mk]
  rcases env.tempDir with e | tmpdir
  · simp [logFatal, Run.prepend, errOf]
  · simp only [errOf]
    generalize gendex env tmpdir = g
    rcases g with ⟨tr, out⟩
    rcases out with r | msg | code
    · rcases r with _ | e <;> simp [mk_returned_bind, logFatal, Run.prepend, errOf]
    · simp [mk_panicked_bind, Run.prepend, errOf]
    · simp [mk_exited_bind, Run.prepend, errOf]

/-- With no Java source found, `gendex` returns an error after the glob and starts no
process. -/
theorem gendex_no_sources (env : Env) (tmpdir : String)
    (h : env.glob "../../app/*.java" = .ok []) :
    (∃ e, (gendex env tmpdir).out = .returned (some e)) ∧
      ∀ ev ∈ (gendex env tmpdir).trace, ev.call.isProcess = false := by
  unfold gendex
  simp only [sdkpathAndroidHome, osMkdirAll, filepathGlob, perform, pure_eq_mk,
    mk_returned_bind, prepend_mk, h]
  rcases env.androidHome with e | home
  · simp [Run.prepend, Call.isProcess]
  · simp only [errOf]
    rcases env.mkdirAll (tmpdir ++ "/work/org/golang/app") with _ | e
    · simp [Run.prepend, Call.isProcess]
    · simp [Run.prepend, Call.isProcess]

/-- The function `gendex` itself never calls `os.RemoveAll`. -/
theorem gendex_no_removeAll (env : Env) (tmpdir dir : String) :
    (gendex env tmpdir).trace.filter (fun ev => decide (ev.call = .removeAll dir)) = [] := by
  obtain ⟨v, ending, -, -, h⟩ := gendex_cases env tmpdir
  rw [h]
  cases ending <;> simp [Ending.run, prepared, compiled, linked, formatted]

/-- Whenever the temporary directory was made and `gendex` returns, with an error or
without, the run of `main` calls `os.RemoveAll` on the directory exactly once. -/
theorem main_cleanup_once_on_return (env : Env) (tmpdir : String) (r : Option GoError)
    (ht : env.tempDir = .ok tmpdir) (hr : (gendex env tmpdir).out = .returned r) :
    ((main env).trace.filter (fun ev => decide (ev.call = .removeAll tmpdir))).length = 1 := by
  rw [main_eq, ht]
  simp only [hr]
  rcases r with _ | e <;>
    simp [List.filter_cons, List.filter_append, gendex_no_removeAll]

/-! ## Claims about the pipeline -/

/-- C5: in every environment in which the glob `../../app/*.java` matches no file, `gendex`
returns an error, and neither it nor the run of `main` around it starts a process: no
`javac` and no `dx`. -/
theorem no_sources_no_process (env : Env) (tmpdir : String)
    (h : env.glob "../../app/*.java" = .ok []) :
    (∃ e, (gendex env tmpdir).out = .returned (some e)) ∧
      (∀ ev ∈ (gendex env tmpdir).trace, ev.call.isProcess = false) ∧
      (∀ ev ∈ (main env).trace, ev.call.isProcess = false) := by
  refine ⟨(gendex_no_sources env tmpdir h).1, (gendex_no_sources env tmpdir h).2, ?_⟩
  rw [main_eq]
  rcases env.tempDir with e | dir
  · simp [Call.isProcess]
  · have k := (gendex_no_sources env dir h).2
    simp only []
    rcases (gendex env dir).out with r | msg | code
    · rcases r with _ | e
      · intro ev hev
        simp only [List.mem_cons, List.mem_append, List.mem_singleton, List.not_mem_nil,
          or_false] at hev
        rcases hev with (rfl | hev) | rfl
        · rfl
        · exact k ev hev
        · rfl
      · intro ev hev
        simp only [List.mem_cons, List.mem_append, List.mem_singleton, List.not_mem_nil,
          or_false] at hev
        rcases hev with (rfl | hev) | rfl | rfl
        · rfl
        · exact k ev hev
        · rfl
        · rfl
    · intro ev hev
      rcases List.mem_cons.mp hev with rfl | hev
      · rfl
      · exact k ev hev
    · intro ev hev
      rcases List.mem_cons.mp hev with rfl | hev
      · rfl
      · exact k ev hev

/-- Witness for C5: the environment `envNoSources`. -/
theorem no_sources_no_process_witness :
    (∃ e, (gendex envNoSources "/tmp/gendex-1").out = .returned (some e)) ∧
      (∀ ev ∈ (gendex envNoSources "/tmp/gendex-1").trace, ev.call.isProcess = false) ∧
      (∀ ev ∈ (main envNoSources).trace, ev.call.isProcess = false) :=
  no_sources_no_process envNoSources "/tmp/gendex-1" rfl

/-- C6: with an empty platforms directory the temporary directory is made, `gendex` panics
in `findLast`, and the run of `main` ends in that panic without any call of
`os.RemoveAll`. -/
theorem main_panic_skips_cleanup :
    envEmptyPlatforms.tempDir = .ok "/tmp/gendex-1" ∧
    (⟨.tempDir "" "gendex-", none⟩ : Event) ∈ (main envEmptyPlatforms).trace ∧
    (main envEmptyPlatforms).out = .panicked "runtime error: index out of range" ∧
    ((main envEmptyPlatforms).trace.filter
      (fun ev => decide (ev.call = .removeAll "/tmp/gendex-1"))).length = 0 := by
  refine ⟨rfl, ?_, ?_, ?_⟩ <;> decide

/-- C7: when the output file is created and the write fails, `gendex` returns the write
error and the trace holds no call of `Close` on the file. -/
theorem write_failure_skips_close :
    (⟨.create "dex.go", none⟩ : Event) ∈ (gendex envWriteFails "/tmp/gendex-1").trace ∧
    (gendex envWriteFails "/tmp/gendex-1").out
      = .returned (some (.ofCall "write dex.go: no space left on device")) ∧
    ((gendex envWriteFails "/tmp/gendex-1").trace.filter
      (fun ev => decide (ev.call = .close "dex.go"))).length = 0 := by
  refine ⟨?_, ?_, ?_⟩ <;> decide

/-- C9, counterexample: when the SDK lookup returns an error, `gendex` makes no further
call, and what it returns is not that error but a new error wrapping it. -/
theorem sdk_error_is_wrapped :
    envNoSdk.androidHome = .error (.ofCall "ANDROID_HOME not set") ∧
    (gendex envNoSdk "/tmp/gendex-1").trace
      = [⟨.androidHome, some (.ofCall "ANDROID_HOME not set")⟩] ∧
    (gendex envNoSdk "/tmp/gendex-1").out
      = .returned (some (.wrapped "couldn't find Android SDK: "
          (.ofCall "ANDROID_HOME not set"))) ∧
    (gendex envNoSdk "/tmp/gendex-1").out
      ≠ .returned (some (.ofCall "ANDROID_HOME not set")) := by
  refine ⟨rfl, ?_, ?_, ?_⟩ <;> decide

/-- C9, amended: whenever a call of `gendex` returns an error, `gendex` returns that error
(for the SDK lookup: that error wrapped with the message `couldn't find Android SDK: `),
no earlier call had failed, and nothing follows but the diagnostic output of the failed
step; in particular, if `javac` fails no other process is run and the output file is not
created, and if formatting fails the output file is not created. -/
theorem gendex_stops_at_first_error (env : Env) (tmpdir : String) (pre post : List Event)
    (ev : Event) (e : GoError)
    (htrace : (gendex env tmpdir).trace = pre ++ ev :: post) (herr : ev.err = some e) :
    (gendex env tmpdir).out = .returned (some (returnedFor ev.call e)) ∧
      (∀ x ∈ pre, x.err = none) ∧
      (∀ x ∈ post, x.call.isDiagnostic = true ∧ x.err = none) ∧
      (ev.call.isJavac = true → ∀ x ∈ (gendex env tmpdir).trace,
        (x.call.isProcess = true → x = ev) ∧ x.call.isCreate = false) ∧
      (ev.call.isFormat = true → ∀ x ∈ (gendex env tmpdir).trace, x.call.isCreate = false) := by
  have hfs : FailStop (pre ++ ev :: post) (gendex env tmpdir).out := by
    rw [← htrace]
    exact gendex_failStop env tmpdir
  have hmem : ev ∈ (gendex env tmpdir).trace := by
    rw [htrace]
    simp
  have hne : ev.err ≠ none := by
    rw [herr]
    simp
  obtain ⟨h1, h2, h3⟩ := failStop_split _ pre post ev e hfs herr
  exact ⟨h1, h2, h3, javac_failure_is_final env tmpdir ev hmem hne,
    format_failure_is_final env tmpdir ev hmem hne⟩

/-- Witness for C9, amended: in `envJavacFails` the compiler is the sixth call and fails;
`gendex` returns its error after printing the arguments and the output. -/
theorem gendex_stops_at_first_error_witness :
    (gendex envJavacFails "/tmp/gendex-1").out = .returned (some (.ofCall "exit status 1")) ∧
      (∀ x ∈ (gendex envJavacFails "/tmp/gendex-1").trace, x.call.isCreate = false) :=
  have h := gendex_stops_at_first_error envJavacFails "/tmp/gendex-1"
    [⟨.androidHome, none⟩, ⟨.mkdirAll "/tmp/gendex-1/work/org/golang/app" 0o775, none⟩,
      ⟨.glob "../../app/*.java", none⟩, ⟨.osOpen "/sdk/platforms", none⟩,
      ⟨.readdirnames "/sdk/platforms" (-1), none⟩]
    [⟨.println ["javac", "-source", "1.8", "-target", "1.8", "-bootclasspath",
        "/sdk/platforms/android-34/android.jar", "-d", "/tmp/gendex-1/work",
        "../../app/GoNativeActivity.java"], none⟩,
      ⟨.stderrWrite [], none⟩]
    ⟨.combinedOutput ["javac", "-source", "1.8", "-target", "1.8", "-bootclasspath",
        "/sdk/platforms/android-34/android.jar", "-d", "/tmp/gendex-1/work",
        "../../app/GoNativeActivity.java"], some (.ofCall "exit status 1")⟩
    (.ofCall "exit status 1") (by decide) rfl
  ⟨h.1, fun x hx => (h.2.2.2.1 (by decide) x hx).2⟩

end Gendex
